import Mathlib

/-!
Verification of the KOL Analytics backend core (models.py, kol_service.py).

This file shallowly embeds the data model and the business-logic layer of the
backend: record validation (pydantic model `KOL` in models.py), the in-memory
data store (`KOLService._load_data`, `get_all_kols`, `get_kol_by_id`), the
search/filter logic (`search_kols`) and the statistics engine
(`calculate_statistics`).  Python floats are modelled as exact rationals (ℚ),
Python ints as `Int`/`Nat`, raised exceptions as `Except` errors.  Python's
`dict` is modelled as a function updated left-to-right (later keys override
earlier ones), `collections.Counter` as the list of distinct keys in
first-encountered order paired with their multiplicities, and the stable
descending sorts performed by `Counter.most_common` / `sorted(..., reverse=True)`
as `List.insertionSort` with the total relation "count of the right entry is at
most count of the left entry" (which is a stable descending sort, matching
CPython's documented stability).
-/

/-- Record model, mirroring the pydantic `KOL` model of models.py (validated
numeric fields are non-negative, hence `Nat`). -/
structure KOL where
  id : String
  name : String
  affiliation : String
  country : String
  city : Option String
  expertiseArea : String
  publicationsCount : Nat
  hIndex : Nat
  citations : Nat
  deriving DecidableEq

/-- Raw, not yet validated record, as parsed from JSON (numbers may be any
integers). -/
structure RawKOL where
  id : String
  name : String
  affiliation : String
  country : String
  city : Option String
  expertiseArea : String
  publicationsCount : Int
  hIndex : Int
  citations : Int

/-- Names of the fields that pydantic has already validated when the
`@validator('publicationsCount')` hook runs.  Pydantic populates `values` with
the previously validated fields in declaration order, and in models.py the
declaration order is id, name, affiliation, country, city, expertiseArea,
publicationsCount, hIndex, citations — so `hIndex` is NOT among them when
`publicationsCount` is validated. -/
def valuesAtPublicationsCount : List String :=
  ["id", "name", "affiliation", "country", "city", "expertiseArea"]

/-- Validation of a raw record into a typed `KOL`, mirroring models.py:
field constraints (`min_length=1` on name and country, `ge=0` on the numeric
fields) are checked in declaration order, and the custom validator
`validate_publications_vs_hindex` runs on `publicationsCount` guarded by its
`if 'hIndex' in values` test (modelled by membership in
`valuesAtPublicationsCount`). -/
def validateKOL (r : RawKOL) : Except String KOL :=
  if r.name.length < 1 then
    Except.error "name: string should have at least 1 character"
  else if r.country.length < 1 then
    Except.error "country: string should have at least 1 character"
  else if r.publicationsCount < 0 then
    Except.error "publicationsCount: input should be greater than or equal to 0"
  else if "hIndex" ∈ valuesAtPublicationsCount ∧ r.publicationsCount < r.hIndex then
    Except.error ("publicationsCount (" ++ toString r.publicationsCount ++
      ") must be >= hIndex (" ++ toString r.hIndex ++ ")")
  else if r.hIndex < 0 then
    Except.error "hIndex: input should be greater than or equal to 0"
  else if r.citations < 0 then
    Except.error "citations: input should be greater than or equal to 0"
  else
    Except.ok
      { id := r.id, name := r.name, affiliation := r.affiliation,
        country := r.country, city := r.city, expertiseArea := r.expertiseArea,
        publicationsCount := r.publicationsCount.toNat,
        hIndex := r.hIndex.toNat, citations := r.citations.toNat }

/-- Data store: `get_all_kols` returns (a copy of) the full ordered record
sequence. -/
def get_all_kols (kols : List KOL) : List KOL := kols

/-- Insertion of one record into the id index, mirroring one step of the dict
comprehension in `_load_data`: the key `kol.id` is bound to `kol`, overriding
any earlier binding of the same key. -/
def kolIndexInsert (d : String → Option KOL) (k : KOL) : String → Option KOL :=
  fun j => if k.id = j then some k else d j

/-- The id index built by `_load_data`, modelled as the lookup function of the
dict comprehension (iterating the validated sequence left to right, so later
duplicate ids override earlier ones). -/
def kols_by_id (kols : List KOL) : String → Option KOL :=
  kols.foldl kolIndexInsert (fun _ => none)

/-- Point lookup `get_kol_by_id`, i.e. `self._kols_by_id.get(kol_id)`. -/
def get_kol_by_id (kols : List KOL) (kol_id : String) : Option KOL :=
  kols_by_id kols kol_id

/-- Helper for Python's substring test: does the second character list start
with the first one? -/
def leadMatch : List Char → List Char → Bool
  | [], _ => true
  | _ :: _, [] => false
  | a :: as, b :: bs => a == b && leadMatch as bs

/-- Python's `sub in s` on strings, as a scan over character lists. -/
def containsSub (sub : List Char) : List Char → Bool
  | [] => sub.isEmpty
  | b :: bs => leadMatch sub (b :: bs) || containsSub sub bs

/-- Python's `needle in hay` for strings. -/
def strContains (hay needle : String) : Bool := containsSub needle.data hay.data

/-- The `if query:` block of `search_kols`: skipped when the parameter is
`None` or falsy (the empty string), otherwise a case-insensitive substring
filter against name or affiliation. -/
def queryStep (l : List KOL) (query : Option String) : List KOL :=
  match query with
  | some q => if q = "" then l else
      l.filter fun k =>
        strContains k.name.toLower q.toLower || strContains k.affiliation.toLower q.toLower
  | none => l

/-- The `if country:` block of `search_kols` (exact match, truthiness
guard). -/
def countryStep (l : List KOL) (country : Option String) : List KOL :=
  match country with
  | some c => if c = "" then l else l.filter fun k => k.country = c
  | none => l

/-- The `if expertise_area:` block of `search_kols` (exact match, truthiness
guard). -/
def expertiseStep (l : List KOL) (expertise_area : Option String) : List KOL :=
  match expertise_area with
  | some e => if e = "" then l else l.filter fun k => k.expertiseArea = e
  | none => l

/-- The `if min_h_index is not None:` block of `search_kols`. -/
def minHStep (l : List KOL) (min_h_index : Option Int) : List KOL :=
  match min_h_index with
  | some m => l.filter fun k => m ≤ (k.hIndex : Int)
  | none => l

/-- The `if max_h_index is not None:` block of `search_kols`. -/
def maxHStep (l : List KOL) (max_h_index : Option Int) : List KOL :=
  match max_h_index with
  | some m => l.filter fun k => (k.hIndex : Int) ≤ m
  | none => l

/-- Search and filter, mirroring `KOLService.search_kols`: each supplied
predicate narrows the running result list in turn.  The string parameters are
guarded by Python truthiness (`if query:` etc.), so `none` and the empty string
both skip the corresponding filter; the h-index bounds are guarded by
`is not None` only. -/
def search_kols (kols : List KOL) (query country expertise_area : Option String)
    (min_h_index max_h_index : Option Int) : List KOL :=
  maxHStep
    (minHStep
      (expertiseStep
        (countryStep
          (queryStep kols query)
          country)
        expertise_area)
      min_h_index)
    max_h_index

/-- Pointwise text-query predicate (vacuously true when the parameter is
absent or empty, matching the code's truthiness guard). -/
def queryMatch (query : Option String) (k : KOL) : Bool :=
  match query with
  | some q => if q = "" then true else
      strContains k.name.toLower q.toLower || strContains k.affiliation.toLower q.toLower
  | none => true

/-- Pointwise country predicate (exact match; vacuous when absent or empty). -/
def countryMatch (country : Option String) (k : KOL) : Bool :=
  match country with
  | some c => if c = "" then true else k.country = c
  | none => true

/-- Pointwise expertise-area predicate (exact match; vacuous when absent or
empty). -/
def expertiseMatch (expertise_area : Option String) (k : KOL) : Bool :=
  match expertise_area with
  | some e => if e = "" then true else k.expertiseArea = e
  | none => true

/-- Pointwise lower h-index bound (inclusive; vacuous when absent). -/
def minHMatch (min_h_index : Option Int) (k : KOL) : Bool :=
  match min_h_index with
  | some m => m ≤ (k.hIndex : Int)
  | none => true

/-- Pointwise upper h-index bound (inclusive; vacuous when absent). -/
def maxHMatch (max_h_index : Option Int) (k : KOL) : Bool :=
  match max_h_index with
  | some m => (k.hIndex : Int) ≤ m
  | none => true

/-- Citation ratio of one record:
`kol.citations / kol.publicationsCount if kol.publicationsCount > 0 else 0`. -/
def citePerPub (k : KOL) : ℚ :=
  if 0 < k.publicationsCount then (k.citations : ℚ) / (k.publicationsCount : ℚ) else 0

/-- One step of CPython's `max(..., key=lambda x: x[1])` scan: the running
best is replaced only when the new key is strictly greater, so the
first-encountered element wins ties. -/
def maxStep (best : KOL × ℚ) (k : KOL) : KOL × ℚ :=
  if best.2 < citePerPub k then (k, citePerPub k) else best

/-- The `(kol, ratio)` pair selected by the linear max-scan of
`calculate_statistics` (`none` on an empty record list, where the Python code
has already raised). -/
def top_kol : List KOL → Option (KOL × ℚ)
  | [] => none
  | k :: ks => some (ks.foldl maxStep (k, citePerPub k))

/-- Fuel-indexed list of distinct elements in first-encountered order (the
iteration/key order of a Python dict or `Counter` built from the list). -/
def firstOccurAux : Nat → List String → List String
  | 0, _ => []
  | _ + 1, [] => []
  | n + 1, s :: rest => s :: firstOccurAux n (rest.filter fun t => t ≠ s)

/-- Distinct elements of a list in first-encountered order. -/
def firstOccur (l : List String) : List String := firstOccurAux l.length l

/-- The items of `collections.Counter(l)`: each distinct value in
first-encountered order, paired with its number of occurrences. -/
def counterItems (l : List String) : List (String × Nat) :=
  (firstOccur l).map fun s => (s, l.count s)

/-- Comparison used to sort counter items by count descending.  Under
`List.insertionSort` this is a stable descending sort, the behaviour of both
`Counter.most_common` and `sorted(items, key=itemgetter(1), reverse=True)` in
CPython. -/
def byCountDesc (a b : String × Nat) : Prop := b.2 ≤ a.2

instance : DecidableRel byCountDesc := fun a b => Nat.decLe b.2 a.2

instance : IsTotal (String × Nat) byCountDesc := ⟨fun a b => Nat.le_total b.2 a.2⟩

instance : IsTrans (String × Nat) byCountDesc := ⟨fun _ _ _ h1 h2 => Nat.le_trans h2 h1⟩

/-- Round-half-to-even on exact rationals, the rounding Python's builtin
`round` applies. -/
def roundHalfEven (x : ℚ) : ℤ :=
  if x - ⌊x⌋ < 1 / 2 then ⌊x⌋
  else if 1 / 2 < x - ⌊x⌋ then ⌊x⌋ + 1
  else if ⌊x⌋ % 2 = 0 then ⌊x⌋ else ⌊x⌋ + 1

/-- Python's `round(x, dp)` on exact rationals. -/
def roundTo (dp : Nat) (x : ℚ) : ℚ := (roundHalfEven (x * 10 ^ dp) : ℚ) / 10 ^ dp

/-- Geographic distribution entry (pydantic `CountryDistribution`). -/
structure CountryDistribution where
  country : String
  count : Nat
  percentage : ℚ

/-- Expertise distribution entry (pydantic `ExpertiseDistribution`). -/
structure ExpertiseDistribution where
  expertiseArea : String
  count : Nat
  percentage : ℚ

/-- Result of the top-ratio computation (pydantic `TopCitationRatioKOL`; the
source field `ratio` is called `ratioVal` here). -/
structure TopCitationRatioKOL where
  kol : KOL
  ratioVal : ℚ
  percentageAboveAverage : ℚ

/-- Aggregate statistics (pydantic `KOLStats`). -/
structure KOLStats where
  totalKOLs : Nat
  totalPublications : Nat
  countriesRepresented : Nat
  avgHIndex : ℚ
  avgCitationsPerPublication : ℚ
  topCountries : List CountryDistribution
  expertiseDistribution : List ExpertiseDistribution
  topCitationRatioKOL : TopCitationRatioKOL

/-- Errors raised by `calculate_statistics`: the explicit
`ValueError("No KOL data available for statistics calculation")` on an empty
dataset, and Python's `ZeroDivisionError` from the
`percentage_above_avg` computation when the average is zero. -/
inductive StatsError where
  | emptyDataset
  | divisionByZero

/-- Sum of `publicationsCount` over the record list. -/
def totalPublicationsOf (kols : List KOL) : Nat :=
  (kols.map fun k => k.publicationsCount).sum

/-- Sum of `citations` over the record list. -/
def totalCitationsOf (kols : List KOL) : Nat :=
  (kols.map fun k => k.citations).sum

/-- Average citations per publication:
`total_citations / total_publications if total_publications > 0 else 0`. -/
def avgCitationsPerPub (kols : List KOL) : ℚ :=
  if 0 < totalPublicationsOf kols then
    (totalCitationsOf kols : ℚ) / (totalPublicationsOf kols : ℚ)
  else 0

/-- Items of `Counter(kol.country for kol in kols)`. -/
def countryCounts (kols : List KOL) : List (String × Nat) :=
  counterItems (kols.map fun k => k.country)

/-- Items of `Counter(kol.expertiseArea for kol in kols)`. -/
def expertiseCounts (kols : List KOL) : List (String × Nat) :=
  counterItems (kols.map fun k => k.expertiseArea)

/-- The `top_countries` list of `calculate_statistics`:
`country_counts.most_common(10)` (stable descending sort, first ten) turned
into distribution entries with `percentage = count / total_kols * 100`. -/
def top_countries (kols : List KOL) : List CountryDistribution :=
  ((List.insertionSort byCountDesc (countryCounts kols)).take 10).map fun p =>
    { country := p.1, count := p.2,
      percentage := (p.2 : ℚ) / (kols.length : ℚ) * 100 }

/-- The `expertise_distribution` list of `calculate_statistics`: all counter
items sorted by count descending (stable), turned into distribution entries. -/
def expertise_distribution (kols : List KOL) : List ExpertiseDistribution :=
  (List.insertionSort byCountDesc (expertiseCounts kols)).map fun p =>
    { expertiseArea := p.1, count := p.2,
      percentage := (p.2 : ℚ) / (kols.length : ℚ) * 100 }

/-- The statistics engine, mirroring `KOLService.calculate_statistics`.  An
empty record list raises (`emptyDataset`); otherwise totals, averages and
distributions are computed, the top citation-ratio record is selected by the
linear max-scan, and the `percentage_above_avg` division raises
(`divisionByZero`) exactly when `avg_citations_per_pub` is zero. -/
def calculate_statistics : List KOL → Except StatsError KOLStats
  | [] => Except.error StatsError.emptyDataset
  | k :: ks =>
    let kols := k :: ks
    let total_kols := kols.length
    let avg_h_index : ℚ := ((kols.map fun x => x.hIndex).sum : ℚ) / (total_kols : ℚ)
    let avg_citations_per_pub := avgCitationsPerPub kols
    let tp := ks.foldl maxStep (k, citePerPub k)
    if avg_citations_per_pub = 0 then Except.error StatsError.divisionByZero
    else
      Except.ok
        { totalKOLs := total_kols
          totalPublications := totalPublicationsOf kols
          countriesRepresented := (countryCounts kols).length
          avgHIndex := roundTo 1 avg_h_index
          avgCitationsPerPublication := roundTo 1 avg_citations_per_pub
          topCountries := top_countries kols
          expertiseDistribution := expertise_distribution kols
          topCitationRatioKOL :=
            { kol := tp.1, ratioVal := roundTo 2 tp.2,
              percentageAboveAverage :=
                roundTo 2 ((tp.2 - avg_citations_per_pub) / avg_citations_per_pub * 100) } }

/-- First record of the three-record fixture from the spec (publications 10,
h-index 5, citations 100). -/
def fix1 : KOL :=
  { id := "1", name := "Dr. A", affiliation := "Uni X", country := "US",
    city := none, expertiseArea := "Derm", publicationsCount := 10,
    hIndex := 5, citations := 100 }

/-- Second fixture record (publications 20, h-index 8, citations 200). -/
def fix2 : KOL :=
  { id := "2", name := "Dr. B", affiliation := "Uni Y", country := "US",
    city := none, expertiseArea := "Onco", publicationsCount := 20,
    hIndex := 8, citations := 200 }

/-- Third fixture record (publications 5, h-index 3, citations 50). -/
def fix3 : KOL :=
  { id := "3", name := "Dr. C", affiliation := "Uni Z", country := "DE",
    city := none, expertiseArea := "Derm", publicationsCount := 5,
    hIndex := 3, citations := 50 }

/-- The three-record fixture with publications [10,20,5], h-index [5,8,3],
citations [100,200,50]. -/
def fixtureKols : List KOL := [fix1, fix2, fix3]

/-- The statistics value `calculate_statistics` produces on the fixture. -/
def fixtureStats : KOLStats :=
  { totalKOLs := 3
    totalPublications := 35
    countriesRepresented := 2
    avgHIndex := 53 / 10
    avgCitationsPerPublication := 10
    topCountries :=
      [{ country := "US", count := 2, percentage := 200 / 3 },
       { country := "DE", count := 1, percentage := 100 / 3 }]
    expertiseDistribution :=
      [{ expertiseArea := "Derm", count := 2, percentage := 200 / 3 },
       { expertiseArea := "Onco", count := 1, percentage := 100 / 3 }]
    topCitationRatioKOL := { kol := fix1, ratioVal := 10, percentageAboveAverage := 0 } }

/-- Raw record with `publicationsCount = 3 < 5 = hIndex`, every other field
well-formed. -/
def c2raw : RawKOL :=
  { id := "x", name := "Dr. X", affiliation := "Uni", country := "US",
    city := none, expertiseArea := "Derm", publicationsCount := 3,
    hIndex := 5, citations := 10 }

/-- The typed record `validateKOL` produces from `c2raw`. -/
def c2kol : KOL :=
  { id := "x", name := "Dr. X", affiliation := "Uni", country := "US",
    city := none, expertiseArea := "Derm", publicationsCount := 3,
    hIndex := 5, citations := 10 }

/-- Record with zero publications (hence citation ratio 0 and a zero
average). -/
def zeroPubKol : KOL :=
  { id := "z", name := "Dr. Z", affiliation := "Uni", country := "US",
    city := none, expertiseArea := "Derm", publicationsCount := 0,
    hIndex := 0, citations := 0 }

/-! ## Query engine lemmas -/

/-- The query block filters by the pointwise `queryMatch` predicate. -/
theorem queryStep_eq_filter (l : List KOL) (query : Option String) :
    queryStep l query = l.filter fun k => queryMatch query k := by
  cases query with
  | none => simp [queryStep, queryMatch]
  | some q =>
    by_cases hq : q = "" <;> simp [queryStep, queryMatch, hq]

/-- The country block filters by the pointwise `countryMatch` predicate. -/
theorem countryStep_eq_filter (l : List KOL) (country : Option String) :
    countryStep l country = l.filter fun k => countryMatch country k := by
  cases country with
  | none => simp [countryStep, countryMatch]
  | some c =>
    by_cases hc : c = "" <;> simp [countryStep, countryMatch, hc]

/-- The expertise block filters by the pointwise `expertiseMatch` predicate. -/
theorem expertiseStep_eq_filter (l : List KOL) (expertise_area : Option String) :
    expertiseStep l expertise_area = l.filter fun k => expertiseMatch expertise_area k := by
  cases expertise_area with
  | none => simp [expertiseStep, expertiseMatch]
  | some e =>
    by_cases he : e = "" <;> simp [expertiseStep, expertiseMatch, he]

/-- The minimum h-index block filters by the pointwise `minHMatch`
predicate. -/
theorem minHStep_eq_filter (l : List KOL) (min_h_index : Option Int) :
    minHStep l min_h_index = l.filter fun k => minHMatch min_h_index k := by
  cases min_h_index <;> simp [minHStep, minHMatch]

/-- The maximum h-index block filters by the pointwise `maxHMatch`
predicate. -/
theorem maxHStep_eq_filter (l : List KOL) (max_h_index : Option Int) :
    maxHStep l max_h_index = l.filter fun k => maxHMatch max_h_index k := by
  cases max_h_index <;> simp [maxHStep, maxHMatch]

/-- Sequential filtering collapses to a single filter by the conjunction of
the five pointwise predicates. -/
theorem search_kols_eq_filter (kols : List KOL)
    (query country expertise_area : Option String)
    (min_h_index max_h_index : Option Int) :
    search_kols kols query country expertise_area min_h_index max_h_index =
      kols.filter fun k =>
        queryMatch query k && countryMatch country k && expertiseMatch expertise_area k &&
          minHMatch min_h_index k && maxHMatch max_h_index k := by
  rw [search_kols, queryStep_eq_filter, countryStep_eq_filter, expertiseStep_eq_filter,
    minHStep_eq_filter, maxHStep_eq_filter, List.filter_filter, List.filter_filter,
    List.filter_filter, List.filter_filter]
  apply List.filter_congr
  intro k _
  cases queryMatch query k <;> cases countryMatch country k <;>
    cases expertiseMatch expertise_area k <;> cases minHMatch min_h_index k <;>
    cases maxHMatch max_h_index k <;> rfl

/-! ## Data store lemmas -/

/-- Folding the index-insertion over the record list yields, for each id, the
last matching record, or the previous binding when no record matches. -/
theorem foldl_kolIndexInsert (kols : List KOL) (d : String → Option KOL) (i : String) :
    kols.foldl kolIndexInsert d i =
      match (kols.filter fun k => k.id = i).getLast? with
      | some k => some k
      | none => d i := by
  induction kols generalizing d with
  | nil => rfl
  | cons k ks ih =>
    rw [List.foldl_cons, ih]
    by_cases hk : k.id = i
    · rw [List.filter_cons, if_pos (by simpa using hk)]
      cases hfil : ks.filter (fun x => x.id = i) with
      | nil => simp [kolIndexInsert, hk]
      | cons x xs =>
        rw [List.getLast?_cons_cons]
        cases hlast : (x :: xs).getLast? with
        | none => simp at hlast
        | some y => simp [hlast]
    · rw [List.filter_cons, if_neg (by simpa using hk)]
      cases (ks.filter fun x => x.id = i).getLast? <;> simp [kolIndexInsert, hk]

/-! ## Claim theorems (query engine and data store) -/

/-- C5: for every record set and every combination of the optional predicates,
`search_kols` returns exactly the records satisfying every supplied predicate
(their conjunction), in the original order (the result is a single
order-preserving filter of the input, hence a sublist); with no predicates
supplied it returns the same sequence as `get_all_kols`. -/
theorem search_kols_conjunctive_order_preserving (kols : List KOL)
    (query country expertise_area : Option String)
    (min_h_index max_h_index : Option Int) :
    (search_kols kols query country expertise_area min_h_index max_h_index =
      kols.filter fun k =>
        queryMatch query k && countryMatch country k && expertiseMatch expertise_area k &&
          minHMatch min_h_index k && maxHMatch max_h_index k) ∧
    search_kols kols none none none none none = get_all_kols kols ∧
    (search_kols kols query country expertise_area min_h_index max_h_index).Sublist kols := by
  refine ⟨search_kols_eq_filter kols query country expertise_area min_h_index max_h_index,
    rfl, ?_⟩
  rw [search_kols_eq_filter]
  exact List.filter_sublist kols

/-- C9: an empty string supplied for the text query, the country or the
expertise area behaves exactly as if the predicate were absent, and supplying
empty strings for all three (with no bounds) returns the record sequence
unchanged. -/
theorem search_kols_empty_string_noop (kols : List KOL)
    (query country expertise_area : Option String)
    (min_h_index max_h_index : Option Int) :
    search_kols kols (some "") country expertise_area min_h_index max_h_index =
      search_kols kols none country expertise_area min_h_index max_h_index ∧
    search_kols kols query (some "") expertise_area min_h_index max_h_index =
      search_kols kols query none expertise_area min_h_index max_h_index ∧
    search_kols kols query country (some "") min_h_index max_h_index =
      search_kols kols query country none min_h_index max_h_index ∧
    search_kols kols (some "") (some "") (some "") none none = kols :=
  ⟨rfl, rfl, rfl, rfl⟩

/-- C6: `get_all_kols` returns the full sequence (duplicate ids included),
while `get_kol_by_id` returns the last record of the sequence bearing the
requested id (last-write-wins for duplicate ids), and `none` when no record
bears it (the filter is then empty and has no last element). -/
theorem get_kol_by_id_last_write_wins (kols : List KOL) (i : String) :
    get_all_kols kols = kols ∧
    get_kol_by_id kols i = (kols.filter fun k => k.id = i).getLast? := by
  refine ⟨rfl, ?_⟩
  rw [get_kol_by_id, kols_by_id, foldl_kolIndexInsert]
  cases (kols.filter fun k => k.id = i).getLast? <;> rfl

/-- C4: statistics on an empty record set fail with the empty-dataset error
(the `ValueError` raised by `calculate_statistics`); no statistics value is
produced. -/
theorem calculate_statistics_empty_error :
    calculate_statistics ([] : List KOL) = Except.error StatsError.emptyDataset := rfl

/-- C2 (code evaluation): a raw record with `publicationsCount = 3` and
`hIndex = 5` — violating the h-index invariant — is nevertheless ACCEPTED by
validation: the custom validator's `'hIndex' in values` guard is always false
because `hIndex` is declared after `publicationsCount`, so the rejection
branch is unreachable. -/
theorem validateKOL_accepts_pubs_lt_hIndex :
    c2raw.publicationsCount < c2raw.hIndex ∧ validateKOL c2raw = Except.ok c2kol :=
  ⟨by norm_num [c2raw], rfl⟩

/-! ## Statistics engine: the linear max-scan -/

/-- Specification of CPython's `max(..., key=...)` scan: the accumulator pair
is a record of the list together with its citation ratio, the records strictly
before the selected one have strictly smaller ratios (first-encountered wins
ties) and those after it have ratios at most the selected one. -/
theorem foldl_maxStep_spec (ks : List KOL) (b : KOL) :
    (ks.foldl maxStep (b, citePerPub b)).2 =
        citePerPub (ks.foldl maxStep (b, citePerPub b)).1 ∧
    ∃ l₁ l₂,
      b :: ks = l₁ ++ (ks.foldl maxStep (b, citePerPub b)).1 :: l₂ ∧
      (∀ x ∈ l₁, citePerPub x < (ks.foldl maxStep (b, citePerPub b)).2) ∧
      (∀ x ∈ l₂, citePerPub x ≤ (ks.foldl maxStep (b, citePerPub b)).2) := by
  induction ks generalizing b with
  | nil => exact ⟨rfl, [], [], rfl, by simp, by simp⟩
  | cons k t ih =>
    rw [List.foldl_cons]
    by_cases h : citePerPub b < citePerPub k
    · rw [show maxStep (b, citePerPub b) k = (k, citePerPub k) from by simp [maxStep, h]]
      obtain ⟨hr, l₁, l₂, hdec, hlt, hle⟩ := ih k
      have hk_le : citePerPub k ≤ (t.foldl maxStep (k, citePerPub k)).2 := by
        have hmem : k ∈ l₁ ++ (t.foldl maxStep (k, citePerPub k)).1 :: l₂ :=
          hdec ▸ List.mem_cons_self _ _
        rcases List.mem_append.mp hmem with h1 | h2
        · exact le_of_lt (hlt k h1)
        · rcases List.mem_cons.mp h2 with h3 | h4
          · exact le_of_eq ((congrArg citePerPub h3).trans hr.symm)
          · exact hle k h4
      refine ⟨hr, b :: l₁, l₂, ?_, ?_, hle⟩
      · rw [List.cons_append, ← hdec]
      · intro x hx
        rcases List.mem_cons.mp hx with rfl | hx'
        · exact lt_of_lt_of_le h hk_le
        · exact hlt x hx'
    · rw [show maxStep (b, citePerPub b) k = (b, citePerPub b) from by simp [maxStep, h]]
      obtain ⟨hr, l₁, l₂, hdec, hlt, hle⟩ := ih b
      cases l₁ with
      | nil =>
        rw [List.nil_append] at hdec
        injection hdec with hb ht
        refine ⟨hr, [], k :: t, ?_, by simp, ?_⟩
        · rw [List.nil_append, ← hb]
        · intro x hx
          rcases List.mem_cons.mp hx with rfl | hx'
          · have h2 : (t.foldl maxStep (b, citePerPub b)).2 = citePerPub b := by
              rw [hr, ← hb]
            rw [h2]; exact le_of_not_lt h
          · exact hle x (ht ▸ hx')
      | cons a l₁t =>
        rw [List.cons_append] at hdec
        injection hdec with hba ht
        have hb_lt : citePerPub b < (t.foldl maxStep (b, citePerPub b)).2 := by
          have := hlt a (List.mem_cons_self a l₁t)
          rwa [← hba] at this
        refine ⟨hr, b :: k :: l₁t, l₂, ?_, ?_, hle⟩
        · rw [List.cons_append, List.cons_append, ← ht]
        · intro x hx
          rcases List.mem_cons.mp hx with rfl | hx'
          · exact hb_lt
          rcases List.mem_cons.mp hx' with rfl | hx''
          · exact lt_of_le_of_lt (le_of_not_lt h) hb_lt
          · exact hlt x (List.mem_cons_of_mem a hx'')

/-- C1: on every non-empty record set the citation ratio of a record is
citations/publicationsCount when publicationsCount is positive and 0
otherwise, and the max-scan selects a record of maximum ratio such that every
record encountered before it has a strictly smaller ratio (ties resolve to the
first-encountered record); `calculate_statistics`, when it returns statistics,
puts exactly that record into `topCitationRatioKOL`.  On the 3-record fixture
with publications [10,20,5] and citations [100,200,50] all three ratios equal
10 and the first record is selected. -/
theorem top_kol_first_encountered_max (kols : List KOL) (h : kols ≠ []) :
    ((∀ k : KOL, citePerPub k =
        if 0 < k.publicationsCount then (k.citations : ℚ) / (k.publicationsCount : ℚ) else 0) ∧
     ∃ best l₁ l₂,
       top_kol kols = some (best, citePerPub best) ∧
       kols = l₁ ++ best :: l₂ ∧
       (∀ x ∈ l₁, citePerPub x < citePerPub best) ∧
       (∀ x ∈ l₂, citePerPub x ≤ citePerPub best) ∧
       (∀ s : KOLStats, calculate_statistics kols = Except.ok s →
         s.topCitationRatioKOL.kol = best)) ∧
    (fixtureKols.map citePerPub = [10, 10, 10] ∧ top_kol fixtureKols = some (fix1, 10)) := by
  constructor
  · refine ⟨fun k => rfl, ?_⟩
    cases kols with
    | nil => exact absurd rfl h
    | cons k ks =>
      obtain ⟨hr, l₁, l₂, hdec, hlt, hle⟩ := foldl_maxStep_spec ks k
      rw [hr] at hlt hle
      refine ⟨(ks.foldl maxStep (k, citePerPub k)).1, l₁, l₂, ?_, hdec, hlt, hle, ?_⟩
      · show some (ks.foldl maxStep (k, citePerPub k)) = _
        rw [← Prod.mk.eta (p := ks.foldl maxStep (k, citePerPub k)), hr]
      · intro s hs
        simp only [calculate_statistics] at hs
        split at hs
        · exact absurd hs (by simp)
        · injection hs with hs'
          rw [← hs']
  · constructor
    · norm_num [fixtureKols, fix1, fix2, fix3, citePerPub]
    · norm_num [fixtureKols, top_kol, fix1, fix2, fix3, maxStep, citePerPub]

/-- C1 witness: the fixture instantiation of the theorem. -/
theorem top_kol_first_encountered_max_witness :
    fixtureKols.map citePerPub = [10, 10, 10] ∧ top_kol fixtureKols = some (fix1, 10) :=
  (top_kol_first_encountered_max fixtureKols (by simp [fixtureKols])).2

/-- C3: on a non-empty record set whose average citations per publication is
zero, the `percentage_above_avg` computation divides by zero, so
`calculate_statistics` fails with the division-by-zero error and returns no
statistics value. -/
theorem calculate_statistics_divisionByZero (kols : List KOL) (h : kols ≠ [])
    (hz : avgCitationsPerPub kols = 0) :
    calculate_statistics kols = Except.error StatsError.divisionByZero := by
  cases kols with
  | nil => exact absurd rfl h
  | cons k ks =>
    simp only [calculate_statistics]
    rw [if_pos hz]

/-- C3 witness: a one-record dataset whose only record has zero publications
has a zero average, and statistics on it fail with the division-by-zero
error. -/
theorem calculate_statistics_divisionByZero_witness :
    ([zeroPubKol] : List KOL) ≠ [] ∧ avgCitationsPerPub [zeroPubKol] = 0 ∧
      calculate_statistics [zeroPubKol] = Except.error StatsError.divisionByZero :=
  ⟨by simp, by simp [avgCitationsPerPub, totalPublicationsOf, zeroPubKol],
   calculate_statistics_divisionByZero [zeroPubKol] (by simp)
     (by simp [avgCitationsPerPub, totalPublicationsOf, zeroPubKol])⟩

/-! ## Counter lemmas: first-encountered key order -/

/-- Membership in the first-occurrence list is membership in the original
list. -/
theorem firstOccurAux_mem : ∀ (n : Nat) (l : List String), l.length ≤ n →
    ∀ x, x ∈ firstOccurAux n l ↔ x ∈ l := by
  intro n
  induction n with
  | zero =>
    intro l hl x
    rw [List.length_eq_zero.mp (Nat.le_zero.mp hl)]
    simp [firstOccurAux]
  | succ n ih =>
    intro l hl x
    cases l with
    | nil => simp [firstOccurAux]
    | cons s rest =>
      have hlen : (rest.filter fun t => t ≠ s).length ≤ n :=
        le_trans (List.length_filter_le _ _)
          (Nat.succ_le_succ_iff.mp (by simpa using hl))
      simp only [firstOccurAux, List.mem_cons]
      rw [ih _ hlen x]
      by_cases hxs : x = s <;> simp [hxs, List.mem_filter]

/-- The first-occurrence list has no duplicates. -/
theorem firstOccurAux_nodup : ∀ (n : Nat) (l : List String), l.length ≤ n →
    (firstOccurAux n l).Nodup := by
  intro n
  induction n with
  | zero => intro l _; simp [firstOccurAux]
  | succ n ih =>
    intro l hl
    cases l with
    | nil => simp [firstOccurAux]
    | cons s rest =>
      have hlen : (rest.filter fun t => t ≠ s).length ≤ n :=
        le_trans (List.length_filter_le _ _)
          (Nat.succ_le_succ_iff.mp (by simpa using hl))
      simp only [firstOccurAux]
      rw [List.nodup_cons]
      refine ⟨fun hmem => ?_, ih _ hlen⟩
      have := (firstOccurAux_mem n _ hlen s).mp hmem
      simp [List.mem_filter] at this

/-- Filtering preserves relative order: if one element of a filtered list
occurs before another there, it also occurs before it in the original
list. -/
theorem indexOf_lt_of_filter (p : String → Bool) :
    ∀ (l : List String) (x y : String), x ∈ l.filter p → y ∈ l.filter p →
      (l.filter p).indexOf x < (l.filter p).indexOf y → l.indexOf x < l.indexOf y := by
  intro l
  induction l with
  | nil => intro x y hx _ _; simp at hx
  | cons c t ih =>
    intro x y hx hy hlt
    by_cases hpc : p c = true
    · rw [List.filter_cons, if_pos hpc] at hx hy hlt
      by_cases hxc : x = c
      · have hyc : y ≠ c := by
          intro hyy
          rw [hxc, hyy, List.indexOf_cons_self] at hlt
          exact Nat.not_lt_zero _ hlt
        rw [hxc, List.indexOf_cons_self, List.indexOf_cons_ne t fun hh => hyc hh.symm]
        exact Nat.succ_pos _
      · have hyc : y ≠ c := by
          intro hyy
          rw [hyy, List.indexOf_cons_self] at hlt
          exact Nat.not_lt_zero _ hlt
        rw [List.indexOf_cons_ne (t.filter p) fun hh => hxc hh.symm,
          List.indexOf_cons_ne (t.filter p) fun hh => hyc hh.symm] at hlt
        rw [List.indexOf_cons_ne t fun hh => hxc hh.symm,
          List.indexOf_cons_ne t fun hh => hyc hh.symm]
        exact Nat.succ_lt_succ (ih x y ((List.mem_cons.mp hx).resolve_left hxc)
          ((List.mem_cons.mp hy).resolve_left hyc) (Nat.lt_of_succ_lt_succ hlt))
    · rw [List.filter_cons, if_neg hpc] at hx hy hlt
      have hxc : x ≠ c := fun hh => hpc (hh ▸ (List.mem_filter.mp hx).2)
      have hyc : y ≠ c := fun hh => hpc (hh ▸ (List.mem_filter.mp hy).2)
      rw [List.indexOf_cons_ne t fun hh => hxc hh.symm,
        List.indexOf_cons_ne t fun hh => hyc hh.symm]
      exact Nat.succ_lt_succ (ih x y hx hy hlt)

/-- The first-occurrence list is strictly ordered by position of first
occurrence in the original list. -/
theorem firstOccurAux_pairwise : ∀ (n : Nat) (l : List String), l.length ≤ n →
    (firstOccurAux n l).Pairwise fun x y => l.indexOf x < l.indexOf y := by
  intro n
  induction n with
  | zero => intro l _; simp [firstOccurAux]
  | succ n ih =>
    intro l hl
    cases l with
    | nil => simp [firstOccurAux]
    | cons s rest =>
      have hlen : (rest.filter fun t => t ≠ s).length ≤ n :=
        le_trans (List.length_filter_le _ _)
          (Nat.succ_le_succ_iff.mp (by simpa using hl))
      simp only [firstOccurAux]
      refine List.Pairwise.cons ?_ ?_
      · intro y hy
        have hymem := (firstOccurAux_mem n _ hlen y).mp hy
        have hyne : y ≠ s := by
          have := (List.mem_filter.mp hymem).2
          simpa using this
        rw [List.indexOf_cons_self, List.indexOf_cons_ne rest fun hh => hyne hh.symm]
        exact Nat.succ_pos _
      · refine List.Pairwise.imp_of_mem ?_ (ih _ hlen)
        intro a b ha hb hab
        have hamem := (firstOccurAux_mem n _ hlen a).mp ha
        have hbmem := (firstOccurAux_mem n _ hlen b).mp hb
        have hane : a ≠ s := by have := (List.mem_filter.mp hamem).2; simpa using this
        have hbne : b ≠ s := by have := (List.mem_filter.mp hbmem).2; simpa using this
        rw [List.indexOf_cons_ne rest fun hh => hane hh.symm,
          List.indexOf_cons_ne rest fun hh => hbne hh.symm]
        exact Nat.succ_lt_succ (indexOf_lt_of_filter _ rest a b hamem hbmem hab)

/-- Occurrences of a value plus the length of the list without that value
give the length of the list. -/
theorem count_add_filter_ne (s : String) (l : List String) :
    l.count s + (l.filter fun t => t ≠ s).length = l.length := by
  induction l with
  | nil => rfl
  | cons c t ih =>
    by_cases hc : c = s
    · subst hc
      rw [List.count_cons_self, List.filter_cons, if_neg (by simp)]
      simp only [List.length_cons]
      omega
    · rw [List.count_cons_of_ne (fun hh => hc hh.symm) t, List.filter_cons,
        if_pos (by simpa using hc)]
      simp only [List.length_cons]
      omega

/-- Summing the multiplicities of the distinct values of a list gives its
length. -/
theorem firstOccurAux_sum_count : ∀ (n : Nat) (l : List String), l.length ≤ n →
    ((firstOccurAux n l).map fun s => l.count s).sum = l.length := by
  intro n
  induction n with
  | zero =>
    intro l hl
    rw [List.length_eq_zero.mp (Nat.le_zero.mp hl)]
    rfl
  | succ n ih =>
    intro l hl
    cases l with
    | nil => rfl
    | cons s rest =>
      have hlen : (rest.filter fun t => t ≠ s).length ≤ n :=
        le_trans (List.length_filter_le _ _)
          (Nat.succ_le_succ_iff.mp (by simpa using hl))
      simp only [firstOccurAux, List.map_cons, List.sum_cons]
      have hmap : ((firstOccurAux n (rest.filter fun t => t ≠ s)).map
            fun t => (s :: rest).count t).sum =
          ((firstOccurAux n (rest.filter fun t => t ≠ s)).map
            fun t => (rest.filter fun t => t ≠ s).count t).sum := by
        refine congrArg List.sum (List.map_congr_left ?_)
        intro t ht
        have htmem := (firstOccurAux_mem n _ hlen t).mp ht
        have htne : t ≠ s := by have := (List.mem_filter.mp htmem).2; simpa using this
        rw [List.count_cons_of_ne htne rest]
        exact (List.count_filter (by simpa using htne)).symm
      rw [hmap, ih _ hlen, List.count_cons_self]
      have := count_add_filter_ne s rest
      simp only [List.length_cons]
      omega

/-- The keys of the counter are exactly the distinct values in
first-encountered order. -/
theorem counterItems_keys (l : List String) :
    (counterItems l).map (fun p => p.1) = firstOccur l := by
  rw [counterItems, List.map_map]
  rw [show ((fun p : String × Nat => p.1) ∘ fun s => (s, l.count s)) = fun s => s from rfl]
  simp

/-- Counter items are strictly ordered by first occurrence of their keys. -/
theorem counterItems_pairwise (l : List String) :
    (counterItems l).Pairwise fun p q => l.indexOf p.1 < l.indexOf q.1 := by
  rw [counterItems, firstOccur]
  exact List.pairwise_map.mpr (by
    simpa using firstOccurAux_pairwise l.length l le_rfl)

/-- Counter keys are distinct. -/
theorem counterItems_keys_nodup (l : List String) :
    ((counterItems l).map fun p => p.1).Nodup := by
  rw [counterItems_keys, firstOccur]
  exact firstOccurAux_nodup l.length l le_rfl

/-- A value is a counter key exactly when it occurs in the list. -/
theorem mem_counterItems_keys (l : List String) (x : String) :
    x ∈ (counterItems l).map (fun p => p.1) ↔ x ∈ l := by
  rw [counterItems_keys, firstOccur]
  exact firstOccurAux_mem l.length l le_rfl x

/-- The counts of the counter sum to the length of the list. -/
theorem counterItems_counts_sum (l : List String) :
    ((counterItems l).map fun p => p.2).sum = l.length := by
  have hmap : (counterItems l).map (fun p => p.2) = (firstOccur l).map fun s => l.count s := by
    rw [counterItems, List.map_map]
    rfl
  rw [hmap, firstOccur]
  exact firstOccurAux_sum_count l.length l le_rfl

/-! ## Stability of the descending sort -/

/-- Inserting an entry whose count is `c` leaves it first among the entries of
count `c`: all entries placed before it have strictly greater counts. -/
theorem filter_orderedInsert_pos (a : String × Nat) (l : List (String × Nat)) (c : Nat)
    (ha : a.2 = c) :
    (List.orderedInsert byCountDesc a l).filter (fun p => p.2 = c) =
      a :: l.filter fun p => p.2 = c := by
  induction l with
  | nil => simp [List.orderedInsert, ha]
  | cons b t ih =>
    rw [List.orderedInsert]
    by_cases hab : byCountDesc a b
    · rw [if_pos hab, List.filter_cons, if_pos (by simpa using ha)]
    · rw [if_neg hab, List.filter_cons]
      have hb : ¬(b.2 = c) := fun hbc => hab (le_of_eq (hbc.trans ha.symm))
      rw [if_neg (by simpa using hb), ih, List.filter_cons, if_neg (by simpa using hb)]

/-- Inserting an entry whose count is not `c` does not disturb the entries of
count `c`. -/
theorem filter_orderedInsert_neg (a : String × Nat) (l : List (String × Nat)) (c : Nat)
    (ha : ¬ a.2 = c) :
    (List.orderedInsert byCountDesc a l).filter (fun p => p.2 = c) =
      l.filter fun p => p.2 = c := by
  induction l with
  | nil => simp [List.orderedInsert, ha]
  | cons b t ih =>
    rw [List.orderedInsert]
    by_cases hab : byCountDesc a b
    · rw [if_pos hab, List.filter_cons, if_neg (by simpa using ha)]
    · rw [if_neg hab]
      by_cases hb : b.2 = c
      · rw [List.filter_cons, if_pos (by simpa using hb), ih, List.filter_cons,
          if_pos (by simpa using hb)]
      · rw [List.filter_cons, if_neg (by simpa using hb), ih, List.filter_cons,
          if_neg (by simpa using hb)]

/-- Stability: the insertion sort by descending count keeps the entries of any
fixed count in their original relative order. -/
theorem filter_insertionSort_stable (l : List (String × Nat)) (c : Nat) :
    (List.insertionSort byCountDesc l).filter (fun p => p.2 = c) =
      l.filter fun p => p.2 = c := by
  induction l with
  | nil => rfl
  | cons a t ih =>
    rw [List.insertionSort]
    by_cases ha : a.2 = c
    · rw [filter_orderedInsert_pos _ _ _ ha, ih, List.filter_cons, if_pos (by simpa using ha)]
    · rw [filter_orderedInsert_neg _ _ _ ha, ih, List.filter_cons, if_neg (by simpa using ha)]

/-- A relation that holds pairwise on every equal-count slice of a list holds
pairwise on the list when restricted to equal-count pairs. -/
theorem pairwise_of_filter_pairwise {Q : String × Nat → String × Nat → Prop}
    (l : List (String × Nat))
    (h : ∀ c, (l.filter fun p => p.2 = c).Pairwise Q) :
    l.Pairwise fun a b => a.2 = b.2 → Q a b := by
  induction l with
  | nil => exact List.Pairwise.nil
  | cons a t ih =>
    refine List.Pairwise.cons ?_ (ih ?_)
    · intro b hb hab
      have h1 := h a.2
      rw [List.filter_cons, if_pos (by simp)] at h1
      exact (List.pairwise_cons.mp h1).1 b (List.mem_filter.mpr ⟨hb, by simp [hab]⟩)
    · intro c
      have h1 := h c
      rw [List.filter_cons] at h1
      by_cases hac : a.2 = c
      · rw [if_pos (by simpa using hac)] at h1
        exact (List.pairwise_cons.mp h1).2
      · rwa [if_neg (by simpa using hac)] at h1

/-! ## Statistics engine: distributions -/

/-- Inversion of a successful statistics computation: the record list is
non-empty and the fields of the result are the component values. -/
theorem calcStats_ok_fields (kols : List KOL) (s : KOLStats)
    (h : calculate_statistics kols = Except.ok s) :
    kols ≠ [] ∧ s.totalKOLs = kols.length ∧ s.topCountries = top_countries kols ∧
      s.expertiseDistribution = expertise_distribution kols := by
  cases kols with
  | nil => simp [calculate_statistics] at h
  | cons k ks =>
    simp only [calculate_statistics] at h
    split at h
    · simp at h
    · injection h with h'
      subst h'
      exact ⟨by simp, rfl, rfl, rfl⟩

/-- The top-ten country list is sorted by count descending. -/
theorem top_countries_sorted (kols : List KOL) :
    List.Sorted (fun a b : CountryDistribution => b.count ≤ a.count) (top_countries kols) := by
  rw [top_countries]
  refine List.pairwise_map.mpr ?_
  exact List.Pairwise.sublist (List.take_sublist 10 _)
    (List.sorted_insertionSort byCountDesc (countryCounts kols))

/-- Equal-count entries of the top-ten country list follow the
first-encountered order of their countries in the record list. -/
theorem top_countries_stable (kols : List KOL) :
    (top_countries kols).Pairwise fun a b => a.count = b.count →
      (kols.map fun k => k.country).indexOf a.country <
        (kols.map fun k => k.country).indexOf b.country := by
  rw [top_countries, countryCounts]
  refine List.pairwise_map.mpr ?_
  refine List.Pairwise.sublist (List.take_sublist 10 _) ?_
  refine pairwise_of_filter_pairwise _ ?_
  intro c
  rw [filter_insertionSort_stable]
  exact List.Pairwise.sublist (List.filter_sublist _) (counterItems_pairwise _)

/-- The expertise distribution is sorted by count descending. -/
theorem expertise_distribution_sorted (kols : List KOL) :
    List.Sorted (fun a b : ExpertiseDistribution => b.count ≤ a.count)
      (expertise_distribution kols) := by
  rw [expertise_distribution]
  refine List.pairwise_map.mpr ?_
  exact List.sorted_insertionSort byCountDesc (expertiseCounts kols)

/-- Equal-count entries of the expertise distribution follow the
first-encountered order of their areas in the record list. -/
theorem expertise_distribution_stable (kols : List KOL) :
    (expertise_distribution kols).Pairwise fun a b => a.count = b.count →
      (kols.map fun k => k.expertiseArea).indexOf a.expertiseArea <
        (kols.map fun k => k.expertiseArea).indexOf b.expertiseArea := by
  rw [expertise_distribution, expertiseCounts]
  refine List.pairwise_map.mpr ?_
  refine pairwise_of_filter_pairwise _ ?_
  intro c
  rw [filter_insertionSort_stable]
  exact List.Pairwise.sublist (List.filter_sublist _) (counterItems_pairwise _)

/-- The expertise distribution has an entry for every distinct area and
nothing else. -/
theorem expertise_distribution_keys (kols : List KOL) (a : String) :
    a ∈ kols.map (fun k => k.expertiseArea) ↔
      a ∈ (expertise_distribution kols).map fun d => d.expertiseArea := by
  rw [expertise_distribution, List.map_map]
  rw [show ((fun d : ExpertiseDistribution => d.expertiseArea) ∘ fun p : String × Nat =>
      ({ expertiseArea := p.1, count := p.2,
         percentage := (p.2 : ℚ) / (kols.length : ℚ) * 100 } : ExpertiseDistribution)) =
      fun p : String × Nat => p.1 from rfl]
  rw [((List.perm_insertionSort byCountDesc (expertiseCounts kols)).map
    fun p : String × Nat => p.1).mem_iff]
  rw [expertiseCounts]
  exact (mem_counterItems_keys _ a).symm

/-- Areas appear at most once in the expertise distribution. -/
theorem expertise_distribution_keys_nodup (kols : List KOL) :
    ((expertise_distribution kols).map fun d => d.expertiseArea).Nodup := by
  rw [expertise_distribution, List.map_map]
  rw [show ((fun d : ExpertiseDistribution => d.expertiseArea) ∘ fun p : String × Nat =>
      ({ expertiseArea := p.1, count := p.2,
         percentage := (p.2 : ℚ) / (kols.length : ℚ) * 100 } : ExpertiseDistribution)) =
      fun p : String × Nat => p.1 from rfl]
  rw [((List.perm_insertionSort byCountDesc (expertiseCounts kols)).map
    fun p : String × Nat => p.1).nodup_iff]
  rw [expertiseCounts]
  exact counterItems_keys_nodup _

/-- The counts of the first ten sorted country entries sum to at most the
number of records. -/
theorem take_sort_counts_sum (kols : List KOL) :
    (((List.insertionSort byCountDesc (countryCounts kols)).take 10).map fun p => p.2).sum ≤
      kols.length := by
  have htd := List.sum_take_add_sum_drop
    ((List.insertionSort byCountDesc (countryCounts kols)).map fun p => p.2) 10
  have hperm : ((List.insertionSort byCountDesc (countryCounts kols)).map fun p => p.2).sum =
      ((countryCounts kols).map fun p => p.2).sum :=
    ((List.perm_insertionSort byCountDesc (countryCounts kols)).map fun p => p.2).sum_eq
  have hsum : ((countryCounts kols).map fun p => p.2).sum = kols.length := by
    rw [countryCounts, counterItems_counts_sum, List.length_map]
  rw [← List.map_take] at htd
  omega

/-- The top-ten country list has at most ten entries. -/
theorem top_countries_length_le (kols : List KOL) : (top_countries kols).length ≤ 10 := by
  rw [top_countries, List.length_map, List.length_take]
  exact min_le_left _ _

/-- Each top-country percentage is its count over the total, times 100. -/
theorem top_countries_percentage_def (kols : List KOL) :
    ∀ e ∈ top_countries kols, e.percentage = (e.count : ℚ) / (kols.length : ℚ) * 100 := by
  intro e he
  rw [top_countries] at he
  obtain ⟨p, -, v⟩ := List.mem_map.mp he
  rw [← v]

/-- The top-country counts sum to at most the number of records. -/
theorem top_countries_counts_sum (kols : List KOL) :
    ((top_countries kols).map fun e => e.count).sum ≤ kols.length := by
  rw [top_countries, List.map_map]
  exact take_sort_counts_sum kols

/-- Summing rational casts of the counts is the cast of the natural sum. -/
theorem natCast_map_snd_sum (l : List (String × Nat)) :
    (l.map fun p => ((p.2 : ℚ))).sum = (((l.map fun p => p.2).sum : ℕ) : ℚ) := by
  induction l with
  | nil => simp
  | cons a t ih =>
    simp only [List.map_cons, List.sum_cons, ih]
    push_cast
    ring

/-- Distributivity of the percentage computation over a sum. -/
theorem percentage_sum_eq (l : List (String × Nat)) (N : Nat) :
    (l.map fun p => (p.2 : ℚ) / (N : ℚ) * 100).sum =
      (l.map fun p => ((p.2 : ℚ))).sum / (N : ℚ) * 100 := by
  induction l with
  | nil => simp
  | cons a t ih =>
    simp only [List.map_cons, List.sum_cons, ih]
    ring

/-- The top-country percentages sum to at most 100. -/
theorem top_countries_percentage_sum (kols : List KOL) (h : kols ≠ []) :
    ((top_countries kols).map fun e => e.percentage).sum ≤ 100 := by
  have hN : (0 : ℚ) < (kols.length : ℚ) := by
    exact_mod_cast List.length_pos.mpr h
  rw [top_countries, List.map_map]
  show (((List.insertionSort byCountDesc (countryCounts kols)).take 10).map
      fun p => (p.2 : ℚ) / (kols.length : ℚ) * 100).sum ≤ 100
  rw [percentage_sum_eq]
  have hS : ((((List.insertionSort byCountDesc (countryCounts kols)).take 10).map
      fun p => ((p.2 : ℚ))).sum) ≤ (kols.length : ℚ) := by
    rw [natCast_map_snd_sum]
    exact_mod_cast take_sort_counts_sum kols
  rw [div_mul_eq_mul_div, div_le_iff₀ hN]
  linarith

/-- The expertise counts sum to exactly the number of records. -/
theorem expertise_distribution_counts_sum (kols : List KOL) :
    ((expertise_distribution kols).map fun d => d.count).sum = kols.length := by
  rw [expertise_distribution, List.map_map]
  show ((List.insertionSort byCountDesc (expertiseCounts kols)).map fun p => p.2).sum = _
  rw [((List.perm_insertionSort byCountDesc (expertiseCounts kols)).map
    fun p : String × Nat => p.2).sum_eq]
  rw [expertiseCounts, counterItems_counts_sum, List.length_map]

/-- The expertise percentages sum to exactly 100. -/
theorem expertise_distribution_percentage_sum (kols : List KOL) (h : kols ≠ []) :
    ((expertise_distribution kols).map fun d => d.percentage).sum = 100 := by
  have hN : (0 : ℚ) < (kols.length : ℚ) := by
    exact_mod_cast List.length_pos.mpr h
  rw [expertise_distribution, List.map_map]
  show ((List.insertionSort byCountDesc (expertiseCounts kols)).map
      fun p => (p.2 : ℚ) / (kols.length : ℚ) * 100).sum = 100
  rw [percentage_sum_eq]
  have hnat : ((List.insertionSort byCountDesc (expertiseCounts kols)).map
      fun p : String × Nat => p.2).sum = kols.length := by
    rw [((List.perm_insertionSort byCountDesc (expertiseCounts kols)).map
      fun p : String × Nat => p.2).sum_eq]
    rw [expertiseCounts, counterItems_counts_sum, List.length_map]
  rw [natCast_map_snd_sum, hnat, div_self (ne_of_gt hN), one_mul]

/-- C7: whenever `calculate_statistics` produces statistics, `topCountries`
and `expertiseDistribution` are ordered by count descending; among entries
with equal counts the order follows the position of the first occurrence of
the label in the record set; and `expertiseDistribution` has an entry for
every distinct expertise area (it is never truncated). -/
theorem distributions_sorted_and_stable (kols : List KOL) (s : KOLStats)
    (h : calculate_statistics kols = Except.ok s) :
    List.Sorted (fun a b : CountryDistribution => b.count ≤ a.count) s.topCountries ∧
    s.topCountries.Pairwise (fun a b => a.count = b.count →
      (kols.map fun k => k.country).indexOf a.country <
        (kols.map fun k => k.country).indexOf b.country) ∧
    List.Sorted (fun a b : ExpertiseDistribution => b.count ≤ a.count)
      s.expertiseDistribution ∧
    s.expertiseDistribution.Pairwise (fun a b => a.count = b.count →
      (kols.map fun k => k.expertiseArea).indexOf a.expertiseArea <
        (kols.map fun k => k.expertiseArea).indexOf b.expertiseArea) ∧
    ∀ a, a ∈ kols.map (fun k => k.expertiseArea) ↔
      a ∈ s.expertiseDistribution.map fun d => d.expertiseArea := by
  obtain ⟨-, -, htc, hed⟩ := calcStats_ok_fields kols s h
  rw [htc, hed]
  exact ⟨top_countries_sorted kols, top_countries_stable kols,
    expertise_distribution_sorted kols, expertise_distribution_stable kols,
    fun a => expertise_distribution_keys kols a⟩

/-- C8: whenever `calculate_statistics` produces statistics, `topCountries`
has at most 10 entries, each percentage equals count/totalKOLs*100, the
counts sum to at most the number of records, and the percentages sum to at
most 100 (exactly, with no rounding error, since the percentages are not
rounded). -/
theorem top_countries_bounds (kols : List KOL) (s : KOLStats)
    (h : calculate_statistics kols = Except.ok s) :
    s.topCountries.length ≤ 10 ∧
    (∀ e ∈ s.topCountries, e.percentage = (e.count : ℚ) / (s.totalKOLs : ℚ) * 100) ∧
    ((s.topCountries.map fun e => e.count).sum ≤ s.totalKOLs) ∧
    ((s.topCountries.map fun e => e.percentage).sum ≤ 100) := by
  obtain ⟨hne, htot, htc, -⟩ := calcStats_ok_fields kols s h
  rw [htc, htot]
  exact ⟨top_countries_length_le kols, top_countries_percentage_def kols,
    top_countries_counts_sum kols, top_countries_percentage_sum kols hne⟩

/-- C10: whenever `calculate_statistics` produces statistics, the expertise
distribution partitions the record set: its labels are distinct, they are
exactly the distinct expertise areas, the counts sum to exactly the total
number of records, and the (unrounded) percentages sum to exactly 100. -/
theorem expertise_distribution_partition (kols : List KOL) (s : KOLStats)
    (h : calculate_statistics kols = Except.ok s) :
    ((s.expertiseDistribution.map fun d => d.expertiseArea).Nodup) ∧
    (∀ a, a ∈ kols.map (fun k => k.expertiseArea) ↔
      a ∈ s.expertiseDistribution.map fun d => d.expertiseArea) ∧
    ((s.expertiseDistribution.map fun d => d.count).sum = s.totalKOLs) ∧
    ((s.expertiseDistribution.map fun d => d.percentage).sum = 100) := by
  obtain ⟨hne, htot, -, hed⟩ := calcStats_ok_fields kols s h
  rw [hed, htot]
  exact ⟨expertise_distribution_keys_nodup kols, fun a => expertise_distribution_keys kols a,
    expertise_distribution_counts_sum kols, expertise_distribution_percentage_sum kols hne⟩

/-! ## Fixture evaluation -/

/-- Evaluation of the statistics engine on the three-record fixture. -/
theorem calculate_statistics_fixture :
    calculate_statistics fixtureKols = Except.ok fixtureStats := by
  have hcc : countryCounts [fix1, fix2, fix3] = [("US", 2), ("DE", 1)] := by
    simp [countryCounts, counterItems, firstOccur, firstOccurAux, fix1, fix2, fix3,
      List.count_cons]
  have hec : expertiseCounts [fix1, fix2, fix3] = [("Derm", 2), ("Onco", 1)] := by
    simp [expertiseCounts, counterItems, firstOccur, firstOccurAux, fix1, fix2, fix3,
      List.count_cons]
  have havg : avgCitationsPerPub [fix1, fix2, fix3] = 10 := by
    norm_num [avgCitationsPerPub, totalPublicationsOf, totalCitationsOf, fix1, fix2, fix3]
  have htop : [fix2, fix3].foldl maxStep (fix1, citePerPub fix1) = (fix1, 10) := by
    norm_num [maxStep, citePerPub, fix1, fix2, fix3]
  have htc : top_countries [fix1, fix2, fix3] =
      [{ country := "US", count := 2, percentage := 200 / 3 },
       { country := "DE", count := 1, percentage := 100 / 3 }] := by
    rw [top_countries, hcc]
    norm_num [List.insertionSort, List.orderedInsert, byCountDesc]
  have hed : expertise_distribution [fix1, fix2, fix3] =
      [{ expertiseArea := "Derm", count := 2, percentage := 200 / 3 },
       { expertiseArea := "Onco", count := 1, percentage := 100 / 3 }] := by
    rw [expertise_distribution, hec]
    norm_num [List.insertionSort, List.orderedInsert, byCountDesc]
  rw [show fixtureKols = [fix1, fix2, fix3] from rfl]
  simp only [calculate_statistics]
  rw [if_neg (by rw [havg]; norm_num)]
  refine congrArg Except.ok ?_
  have hccl : (countryCounts [fix1, fix2, fix3]).length = 2 := by rw [hcc]; rfl
  simp only [fixtureStats, KOLStats.mk.injEq, htop, htc, hed, havg, hccl]
  norm_num [totalPublicationsOf, fix1, fix2, fix3, roundTo, roundHalfEven]

/-- C7 witness: the fixture instantiation of the theorem. -/
theorem distributions_sorted_and_stable_witness :
    List.Sorted (fun a b : CountryDistribution => b.count ≤ a.count)
      fixtureStats.topCountries ∧
    fixtureStats.topCountries.Pairwise (fun a b => a.count = b.count →
      (fixtureKols.map fun k => k.country).indexOf a.country <
        (fixtureKols.map fun k => k.country).indexOf b.country) ∧
    List.Sorted (fun a b : ExpertiseDistribution => b.count ≤ a.count)
      fixtureStats.expertiseDistribution ∧
    fixtureStats.expertiseDistribution.Pairwise (fun a b => a.count = b.count →
      (fixtureKols.map fun k => k.expertiseArea).indexOf a.expertiseArea <
        (fixtureKols.map fun k => k.expertiseArea).indexOf b.expertiseArea) ∧
    ∀ a, a ∈ fixtureKols.map (fun k => k.expertiseArea) ↔
      a ∈ fixtureStats.expertiseDistribution.map fun d => d.expertiseArea :=
  distributions_sorted_and_stable fixtureKols fixtureStats calculate_statistics_fixture

/-- C8 witness: the fixture instantiation of the theorem. -/
theorem top_countries_bounds_witness :
    fixtureStats.topCountries.length ≤ 10 ∧
    (∀ e ∈ fixtureStats.topCountries,
      e.percentage = (e.count : ℚ) / (fixtureStats.totalKOLs : ℚ) * 100) ∧
    ((fixtureStats.topCountries.map fun e => e.count).sum ≤ fixtureStats.totalKOLs) ∧
    ((fixtureStats.topCountries.map fun e => e.percentage).sum ≤ 100) :=
  top_countries_bounds fixtureKols fixtureStats calculate_statistics_fixture

/-- C10 witness: the fixture instantiation of the theorem. -/
theorem expertise_distribution_partition_witness :
    ((fixtureStats.expertiseDistribution.map fun d => d.expertiseArea).Nodup) ∧
    (∀ a, a ∈ fixtureKols.map (fun k => k.expertiseArea) ↔
      a ∈ fixtureStats.expertiseDistribution.map fun d => d.expertiseArea) ∧
    ((fixtureStats.expertiseDistribution.map fun d => d.count).sum =
      fixtureStats.totalKOLs) ∧
    ((fixtureStats.expertiseDistribution.map fun d => d.percentage).sum = 100) :=
  expertise_distribution_partition fixtureKols fixtureStats calculate_statistics_fixture
